import Mathlib

/-!
Verification of the `full-rss` feed-transformation proxy (`src/main.ts`).

The development shallowly embeds the program's core pipeline:

* the feed data model (`Feed`, `Entry`, `Link`, …) as consumed from the
  external feed parser;
* the codec used for the article cache (UTF-8 encode, gzip-style
  compression, decompression);
* the cache-backed content fetcher `fetchContent`;
* the per-feed driver `processFeed`;
* the RSS re-serializer `exportFeed` (its item-selection loop).

Effectful code (Deno KV, network `fetch`, invocation counting) is embedded
by explicit state passing over a `World` record that also carries
instrumentation logs (one entry per cache get, cache put, network fetch and
`fetchContent` invocation), and external collaborators (URL parsing, SHA-256
hashing, the HTML-to-Markdown transform, `marked.parse`, `sanitize-html`,
the network) are supplied as an `Env` of oracle functions.
-/

namespace FullRss

/-! ## Feed data model (external feed parser types, as consumed by `main.ts`) -/

/-- A text-valued feed field such as `entry.title`: an object with an
optional `value` string. -/
structure TextField where
  value : Option String
deriving DecidableEq

/-- An entry's `content` field: optional `value` and `type`. -/
structure ContentField where
  value : Option String
  ctype : Option String
deriving DecidableEq

/-- One element of `entry.links`: an object with an optional `href`. -/
structure Link where
  href : Option String
deriving DecidableEq

/-- A feed or entry author: `{name?, email?, uri?}`. -/
structure FeedAuthor where
  name : Option String
  email : Option String
  uri : Option String
deriving DecidableEq

/-- One element of `entry.categories`: an object with an optional `term`. -/
structure FeedCategory where
  term : Option String
deriving DecidableEq

/-- A feed entry as exposed by the external parser and consumed by
`processFeed` / `exportFeed`.  Dates are modelled as natural timestamps. -/
structure Entry where
  title : Option TextField
  description : Option TextField
  links : Option (List Link)
  content : Option ContentField
  id : Option String
  author : Option FeedAuthor
  categories : Option (List FeedCategory)
  published : Option Nat
  updated : Option Nat
deriving DecidableEq

/-- The parsed feed: feed-level metadata plus the ordered entry list. -/
structure Feed where
  title : Option TextField
  description : Option String
  links : List String
  author : Option FeedAuthor
  entries : List Entry
deriving DecidableEq

/-! ## Codec

`fetchContent` stores article content compressed.  The program pipes the
UTF-8 encoding of the markdown string through `CompressionStream("gzip")`,
accumulates the emitted chunks into one byte sequence, and later feeds that
byte sequence through `DecompressionStream("gzip")` and decodes the text.
Bytes are modelled as `Nat`s below 256 produced by the encoder. -/

/-- UTF-8 encoding of a single Unicode scalar value (as `TextEncoder` does
per character). -/
def utf8EncodeCp (n : Nat) : List Nat :=
  if n < 0x80 then [n]
  else if n < 0x800 then [0xC0 + n / 0x40, 0x80 + n % 0x40]
  else if n < 0x10000 then
    [0xE0 + n / 0x1000, 0x80 + n / 0x40 % 0x40, 0x80 + n % 0x40]
  else
    [0xF0 + n / 0x40000, 0x80 + n / 0x1000 % 0x40,
     0x80 + n / 0x40 % 0x40, 0x80 + n % 0x40]

/-- UTF-8 encoding of a codepoint sequence. -/
def utf8Encode : List Nat → List Nat
  | [] => []
  | c :: cs => utf8EncodeCp c ++ utf8Encode cs

/-- Is `b` a UTF-8 continuation byte? -/
def contByte (b : Nat) : Bool := 0x80 ≤ b && b < 0xC0

/-- Decode one UTF-8 scalar value from the front of a byte list, returning
the codepoint and the remaining bytes. -/
def utf8DecodeOne : List Nat → Option (Nat × List Nat)
  | [] => none
  | b :: l =>
    if b < 0x80 then some (b, l)
    else if b < 0xC0 then none
    else if b < 0xE0 then
      match l with
      | b1 :: l1 =>
        if contByte b1 then some ((b - 0xC0) * 0x40 + (b1 - 0x80), l1) else none
      | [] => none
    else if b < 0xF0 then
      match l with
      | b1 :: b2 :: l2 =>
        if contByte b1 && contByte b2 then
          some ((b - 0xE0) * 0x1000 + (b1 - 0x80) * 0x40 + (b2 - 0x80), l2)
        else none
      | _ => none
    else if b < 0xF8 then
      match l with
      | b1 :: b2 :: b3 :: l3 =>
        if contByte b1 && contByte b2 && contByte b3 then
          some ((b - 0xF0) * 0x40000 + (b1 - 0x80) * 0x1000 +
                (b2 - 0x80) * 0x40 + (b3 - 0x80), l3)
        else none
      | _ => none
    else none

/-- Fuelled UTF-8 decoder; fuel bounds the number of decoded scalars. -/
def utf8DecodeF : Nat → List Nat → Option (List Nat)
  | _, [] => some []
  | 0, _ :: _ => none
  | fuel + 1, b :: l =>
    match utf8DecodeOne (b :: l) with
    | some (n, rest) => (utf8DecodeF fuel rest).map (n :: ·)
    | none => none

/-- UTF-8 decoding of a whole byte list (each scalar consumes at least one
byte, so the list length is enough fuel). -/
def utf8Decode (l : List Nat) : Option (List Nat) := utf8DecodeF l.length l

/-- Fuelled base-128 varint encoder (little-endian groups, high bit marks
continuation). -/
def varintEncodeF : Nat → Nat → List Nat
  | 0, _ => []
  | fuel + 1, n =>
    if n < 0x80 then [n] else (0x80 + n % 0x80) :: varintEncodeF fuel (n / 0x80)

/-- Varint encoding of a natural number. -/
def varintEncode (n : Nat) : List Nat := varintEncodeF (n + 1) n

/-- Fuelled varint decoder, returning the value and the remaining bytes. -/
def varintDecodeF : Nat → List Nat → Option (Nat × List Nat)
  | 0, _ => none
  | _ + 1, [] => none
  | fuel + 1, b :: l =>
    if b < 0x80 then some (b, l)
    else if b < 0x100 then
      (varintDecodeF fuel l).map (fun p => (b - 0x80 + 0x80 * p.1, p.2))
    else none

/-- The fixed ten-byte gzip member header (magic, deflate method, no flags,
unknown OS). -/
def gzipHeader : List Nat := [0x1F, 0x8B, 8, 0, 0, 0, 0, 0, 0, 0xFF]

/-- Modelled from the spec: the gzip codec reached through
`CompressionStream("gzip")` / `DecompressionStream("gzip")` is Web-platform
code, not part of this repository.  Spec §4.1 requires only a lossless,
deterministic, self-describing compressed byte format ("a single-shot
compress call satisfies the contract", §9), so compression is modelled as a
gzip-style framing: the fixed header, a self-describing length, then the
payload bytes. -/
def gzipCompress (bs : List Nat) : List Nat :=
  gzipHeader ++ varintEncode bs.length ++ bs

/-- Modelled from the spec: inverse of `gzipCompress`; fails (as
`DecompressionStream` errors, the program's `CorruptData` case) when the
header or framing does not parse. -/
def gzipDecompress (input : List Nat) : Option (List Nat) :=
  if input.take 10 = gzipHeader then
    match varintDecodeF input.length (input.drop 10) with
    | some (len, rest) => if rest.length = len then some rest else none
    | none => none
  else none

/-- The codepoints of a string. -/
def strCodepoints (s : String) : List Nat := s.data.map Char.toNat

/-- String-to-bytes pipeline of the cache write path: `TextEncoder.encode`
then gzip compression, with the emitted chunks concatenated in order. -/
def compressString (s : String) : List Nat :=
  gzipCompress (utf8Encode (strCodepoints s))

/-- Bytes-to-string pipeline of both return paths: gzip decompression then
UTF-8 text decoding (`Response.text()`). -/
def decompressString (bs : List Nat) : Option String :=
  match gzipDecompress bs with
  | none => none
  | some bytes =>
    match utf8Decode bytes with
    | none => none
    | some cps => some (String.mk (cps.map Char.ofNat))

/-! ## Effect model

The program's observable effects are the Deno KV store, the network, and
calls to `fetchContent` itself.  `World` carries that state, together with
append-only instrumentation logs used by the call-count properties: one
element per KV `get`, per KV `set`, per network `fetch`, and per
`fetchContent` invocation. -/

/-- One record of the KV store: key, stored bytes, absolute expiry time. -/
structure KVEntry where
  key : String
  bytes : List Nat
  expiresAt : Nat
deriving DecidableEq

/-- The mutable world: current time (ms), the KV store, and the
instrumentation logs. -/
structure World where
  now : Nat
  kv : List KVEntry
  getLog : List String
  putLog : List (String × List Nat)
  netLog : List String
  fcLog : List String
deriving DecidableEq

/-- Lookup in a KV record list at a given time: the stored bytes, with Deno
KV's expiry semantics — an entry whose expiry has passed is
indistinguishable from an absent one. -/
def kvFind (now : Nat) (kv : List KVEntry) (key : String) : Option (List Nat) :=
  match kv.find? (fun e => e.key == key) with
  | some e => if now < e.expiresAt then some e.bytes else none
  | none => none

/-- `db.get([key])` on the current world. -/
def kvGet (w : World) (key : String) : Option (List Nat) :=
  kvFind w.now w.kv key

/-- `db.set([key], bytes, {expireIn: 60 * 1000})`: overwrite any entry for
the key, expiring 60 seconds after the call. -/
def kvSet (w : World) (key : String) (bs : List Nat) : World :=
  { w with
    kv := { key := key, bytes := bs, expiresAt := w.now + 60 * 1000 } ::
      w.kv.filter (fun e => e.key != key)
    putLog := w.putLog ++ [(key, bs)] }

/-- The external collaborators of the core, as oracle functions:
`URL.canParse`, the SHA-256 hex digest, the network (`none` models a thrown
transport error, `some body` a response body), `covertToMarkdown`,
`marked.parse` and `sanitizeHtml`. -/
structure Env where
  canParse : String → Bool
  sha256hex : String → String
  net : String → Option String
  toMarkdown : String → String
  markedParse : String → String
  sanitize : String → String

/-- The failures `fetchContent` can raise: the explicit invalid-URL throw,
a network/transport failure, and a decompression failure. -/
inductive FCErr where
  | invalidURL : String → FCErr
  | fetchError : FCErr
  | corruptData : FCErr
deriving DecidableEq

/-- Lines 190–200 of `main.ts`: the block after the cache-hit/miss `if`,
shared by both paths — decompress `content`, then
`sanitizeHtml(marked.parse(...))`. -/
def postProcess (env : Env) (content : List Nat) : Except FCErr String :=
  match decompressString content with
  | some newContent => .ok (env.sanitize (env.markedParse newContent))
  | none => .error .corruptData

/-- `fetchContent` (lines 124–201 of `main.ts`): validate the URL, hash it,
consult the KV cache; on a miss fetch the article, convert it to markdown,
compress, store with a 60-second TTL; then run the shared decompress and
post-processing block on whichever bytes `content` holds.  Every invocation
is recorded in `fcLog`. -/
def fetchContent (env : Env) (url : String) (w0 : World) :
    Except FCErr String × World :=
  let w := { w0 with fcLog := w0.fcLog ++ [url] }
  if env.canParse url = false then (.error (.invalidURL url), w)
  else
    let urlHash := env.sha256hex url
    let w := { w with getLog := w.getLog ++ [urlHash] }
    match kvGet w urlHash with
    | some content => (postProcess env content, w)
    | none =>
      let w := { w with netLog := w.netLog ++ [url] }
      match env.net url with
      | none => (.error .fetchError, w)
      | some body =>
        let markDown := env.toMarkdown body
        let content := compressString markDown
        let w := kvSet w urlHash content
        (postProcess env content, w)

/-! ## Feed processor -/

/-- `MAX_ARTICLES` (line 207). -/
def MAX_ARTICLES : Nat := 10

/-- The three `continue` guards of the loop body collapsed into one link
extraction: `item.links == null || item.links.length === 0` skips, and a
`null` first `href` skips. -/
def entryUrl (item : Entry) : Option String :=
  match item.links with
  | none => none
  | some [] => none
  | some (l :: _) => l.href

/-- `if (item.content == null) item.content = {}` — the content field after
the unconditional initialization that precedes the fetch attempt. -/
def initContent (item : Entry) : Entry :=
  { item with content := some (item.content.getD { value := none, ctype := none }) }

/-- `item.content.value = await fetchContent(url)` — the entry after the
initialization and a successful fetch. -/
def setContentValue (item : Entry) (c : String) : Entry :=
  let cf := item.content.getD { value := none, ctype := none }
  { item with content := some { cf with value := some c } }

/-- The `for (const item of feed.entries)` loop of `processFeed`
(lines 209–235): stop once `articleCount` reaches `MAX_ARTICLES`; skip
link-less entries without counting; otherwise initialize the content field,
attempt the fetch (a failure is caught and leaves the value untouched), and
increment `articleCount` whether or not the fetch succeeded. -/
def processEntries (env : Env) : List Entry → Nat → World → List Entry × World
  | [], _, w => ([], w)
  | item :: rest, articleCount, w =>
    if articleCount ≥ MAX_ARTICLES then (item :: rest, w)
    else
      match entryUrl item with
      | none =>
        let r := processEntries env rest articleCount w
        (item :: r.1, r.2)
      | some url =>
        let fr := fetchContent env url w
        let item2 := match fr.1 with
          | .ok c => setContentValue item c
          | .error _ => initContent item
        let r := processEntries env rest (articleCount + 1) fr.2
        (item2 :: r.1, r.2)

/-- `processFeed` (lines 206–237): run the loop from `articleCount = 0` and
return the (mutated) feed. -/
def processFeed (env : Env) (feed : Feed) (w : World) : Feed × World :=
  let r := processEntries env feed.entries 0 w
  ({ feed with entries := r.1 }, r.2)

/-! ## Feed export (`exportFeed`, lines 68–122) -/

/-- One item passed to `rssFeed.addItem`. -/
structure RssItem where
  title : String
  description : String
  link : String
  id : String
  updated : Nat
  contentBody : String
  contentType : String
deriving DecidableEq

/-- `parseAuthors`: nothing for a null author, else a singleton with empty
strings substituted for missing name/email. -/
def parseAuthors (author : Option FeedAuthor) :
    List (String × String × Option String) :=
  match author with
  | none => []
  | some a => [(a.name.getD "", a.email.getD "", a.uri)]

/-- The `addItem` argument built for one entry (body of the loop after the
null-title check): `entry.title?.value || ""` and friends, the first link's
href (or `""`), and `entry.published || entry.updated || new Date()` with
`nowDate` standing for `new Date()`. -/
def mkRssItem (nowDate : Nat) (entry : Entry) : RssItem :=
  { title := (entry.title.bind TextField.value).getD ""
    description := (entry.description.bind TextField.value).getD ""
    link := (((entry.links.getD []).map Link.href).headD none).getD ""
    id := entry.id.getD ""
    updated := entry.published.getD (entry.updated.getD nowDate)
    contentBody := (entry.content.bind ContentField.value).getD ""
    contentType := "text/html" }

/-- The `for (const entry of feed.entries)` loop of `exportFeed`: an entry
with a `null` title is skipped (`continue`), every other entry contributes
one item, in order. -/
def exportEntries (nowDate : Nat) : List Entry → List RssItem
  | [] => []
  | entry :: rest =>
    match entry.title with
    | none => exportEntries nowDate rest
    | some _ => mkRssItem nowDate entry :: exportEntries nowDate rest

/-- The serialized RSS document, modelled structurally (the `Rss`
constructor argument plus the added items; `build()` is external). -/
structure RssFeed where
  title : String
  description : String
  link : String
  authors : List (String × String × Option String)
  items : List RssItem
deriving DecidableEq

/-- `exportFeed`: feed-level metadata with `|| ""` defaults plus the item
loop. -/
def exportFeed (nowDate : Nat) (feed : Feed) : RssFeed :=
  { title := (feed.title.bind TextField.value).getD ""
    description := feed.description.getD ""
    link := feed.links.headD ""
    authors := parseAuthors feed.author
    items := exportEntries nowDate feed.entries }

/-! ## Concrete fixtures (used to instantiate the properties) -/

deriving instance DecidableEq for Except

/-- A concrete environment: every URL except the literal `"not a url"`
parses, `"https://bad.test/"` suffers a transport failure, every other URL
serves the body `"hi"`; hashing and the pure text transforms are taken as
identities (they are external oracles). -/
def envA : Env :=
  { canParse := fun s => s != "not a url"
    sha256hex := fun s => s
    net := fun s => if s == "https://bad.test/" then none else some "hi"
    toMarkdown := fun s => s
    markedParse := fun s => s
    sanitize := fun s => s }

/-- The initial world: time 0, empty cache, empty logs. -/
def w0 : World :=
  { now := 0, kv := [], getLog := [], putLog := [], netLog := [], fcLog := [] }

/-- An entry with a valid first link. -/
def goodEntryE : Entry :=
  { title := some { value := some "t" }, description := none,
    links := some [{ href := some "https://a.test/1" }], content := none,
    id := none, author := none, categories := none,
    published := none, updated := none }

/-- A second good entry, with a different link. -/
def goodEntryE2 : Entry :=
  { title := some { value := some "u" }, description := none,
    links := some [{ href := some "https://a.test/2" }], content := none,
    id := none, author := none, categories := none,
    published := none, updated := none }

/-- An entry with no links at all. -/
def noLinkE : Entry :=
  { title := some { value := some "n" }, description := none, links := none,
    content := none, id := none, author := none, categories := none,
    published := none, updated := none }

/-- An entry whose first link's URL triggers a fetch failure. -/
def badE : Entry :=
  { title := none, description := none,
    links := some [{ href := some "https://bad.test/" }], content := none,
    id := none, author := none, categories := none,
    published := none, updated := none }

/-- A feed with the given entries and trivial metadata. -/
def feedOf (es : List Entry) : Feed :=
  { title := none, description := none, links := [], author := none,
    entries := es }

/-- A one-entry feed whose only entry fails to fetch. -/
def feedC1 : Feed := feedOf [badE]

/-- A feed whose failing entry sits between two good ones. -/
def feedMixed : Feed := feedOf [goodEntryE, badE, goodEntryE2]

/-- A feed with one link-less entry followed by eleven link-bearing
entries. -/
def feedC2 : Feed := feedOf (noLinkE :: List.replicate 11 goodEntryE)

/-- A feed with fifty entries, each carrying a valid link. -/
def feedC4 : Feed := feedOf (List.replicate 50 goodEntryE)

/-- Every stored byte sequence is the compression of some string (true of
every write the program performs). -/
def kvWF (w : World) : Prop := ∀ e ∈ w.kv, ∃ s, e.bytes = compressString s

/-- No stored entry uses the key `k`. -/
def keysAvoid (w : World) (k : String) : Prop := ∀ e ∈ w.kv, e.key ≠ k

/-- An entry is good for a given failing URL when either it has no link or
its URL parses, its article is reachable, and its key does not collide with
the failing URL's key. -/
def goodEntryB (env : Env) (burl : String) (e : Entry) : Bool :=
  match entryUrl e with
  | none => true
  | some url =>
    env.canParse url && (env.net url).isSome &&
      (env.sha256hex url != env.sha256hex burl)

/-- Output relation for entries not subject to a failure: a link-bearing
entry is populated with some fetched value, a link-less one is untouched. -/
def PopulatedRel (a b : Entry) : Prop :=
  ((entryUrl a).isSome = true → ∃ v, b = setContentValue a v) ∧
    (entryUrl a = none → b = a)

end FullRss

namespace FullRss

/-! ## Codec round-trip -/

/-- UTF-8 encoding of a scalar value is never empty. -/
lemma utf8EncodeCp_ne_nil (n : Nat) : utf8EncodeCp n ≠ [] := by
  unfold utf8EncodeCp
  split
  · simp
  · split
    · simp
    · split <;> simp

/-- Decoding one scalar from an encoded scalar followed by anything returns
that scalar and the trailing bytes. -/
lemma utf8DecodeOne_encodeCp (n : Nat) (h : n < 0x110000) (rest : List Nat) :
    utf8DecodeOne (utf8EncodeCp n ++ rest) = some (n, rest) := by
  unfold utf8EncodeCp
  by_cases h1 : n < 0x80
  · rw [if_pos h1]
    simp only [List.cons_append, List.nil_append, utf8DecodeOne]
    rw [if_pos h1]
  · rw [if_neg h1]
    by_cases h2 : n < 0x800
    · rw [if_pos h2]
      simp only [List.cons_append, List.nil_append, utf8DecodeOne]
      rw [if_neg (by omega), if_neg (by omega), if_pos (by omega),
        if_pos (by simp only [contByte, Bool.and_eq_true, decide_eq_true_eq]; omega)]
      have : (0xC0 + n / 0x40 - 0xC0) * 0x40 + (0x80 + n % 0x40 - 0x80) = n := by
        omega
      rw [this]
    · rw [if_neg h2]
      by_cases h3 : n < 0x10000
      · rw [if_pos h3]
        simp only [List.cons_append, List.nil_append, utf8DecodeOne]
        rw [if_neg (by omega), if_neg (by omega), if_neg (by omega),
          if_pos (by omega),
          if_pos (by simp only [contByte, Bool.and_eq_true, decide_eq_true_eq]; omega)]
        have : (0xE0 + n / 0x1000 - 0xE0) * 0x1000 +
            (0x80 + n / 0x40 % 0x40 - 0x80) * 0x40 + (0x80 + n % 0x40 - 0x80) = n := by
          omega
        rw [this]
      · rw [if_neg h3]
        simp only [List.cons_append, List.nil_append, utf8DecodeOne]
        rw [if_neg (by omega), if_neg (by omega), if_neg (by omega),
          if_neg (by omega), if_pos (by omega),
          if_pos (by simp only [contByte, Bool.and_eq_true, decide_eq_true_eq]; omega)]
        have : (0xF0 + n / 0x40000 - 0xF0) * 0x40000 +
            (0x80 + n / 0x1000 % 0x40 - 0x80) * 0x1000 +
            (0x80 + n / 0x40 % 0x40 - 0x80) * 0x40 + (0x80 + n % 0x40 - 0x80) = n := by
          omega
        rw [this]

/-- The fuelled decoder inverts the encoder given fuel at least the number
of scalars. -/
lemma utf8DecodeF_encode :
    ∀ (cps : List Nat) (fuel : Nat), (∀ n ∈ cps, n < 0x110000) →
      cps.length ≤ fuel → utf8DecodeF fuel (utf8Encode cps) = some cps := by
  intro cps
  induction cps with
  | nil => intro fuel _ _; cases fuel <;> rfl
  | cons c cs ih =>
    intro fuel hv hf
    match fuel with
    | fuel + 1 =>
      obtain ⟨b, t, hbt⟩ := List.exists_cons_of_ne_nil (utf8EncodeCp_ne_nil c)
      have hshape : utf8Encode (c :: cs) = b :: (t ++ utf8Encode cs) := by
        show utf8EncodeCp c ++ utf8Encode cs = _
        rw [hbt]; rfl
      rw [hshape]
      simp only [utf8DecodeF]
      have hone : utf8DecodeOne (b :: (t ++ utf8Encode cs)) = some (c, utf8Encode cs) := by
        rw [show b :: (t ++ utf8Encode cs) = (b :: t) ++ utf8Encode cs from rfl, ← hbt]
        exact utf8DecodeOne_encodeCp c (hv c (by simp)) _
      rw [hone]
      have ih' := ih fuel (fun n hn => hv n (by simp [hn])) (by simpa using hf)
      simp [ih']

/-- Encoded byte length dominates the scalar count. -/
lemma le_length_utf8Encode (cps : List Nat) : cps.length ≤ (utf8Encode cps).length := by
  induction cps with
  | nil => simp [utf8Encode]
  | cons c cs ih =>
    show (c :: cs).length ≤ (utf8EncodeCp c ++ utf8Encode cs).length
    have := List.length_pos.mpr (utf8EncodeCp_ne_nil c)
    simp only [List.length_cons, List.length_append]
    omega

/-- The varint encoder ignores its fuel once the fuel exceeds the value. -/
lemma varintEncodeF_irrel (n : Nat) :
    ∀ f f', n < f → n < f' → varintEncodeF f n = varintEncodeF f' n := by
  induction n using Nat.strong_induction_on with
  | _ n ih =>
    intro f f' hf hf'
    match f, f' with
    | f + 1, f' + 1 =>
      simp only [varintEncodeF]
      by_cases hn : n < 0x80
      · rw [if_pos hn, if_pos hn]
      · rw [if_neg hn, if_neg hn,
          ih (n / 0x80) (by omega) f f' (by omega) (by omega)]

/-- The varint decoder inverts the encoder given fuel above the value. -/
lemma varintDecodeF_encode (n : Nat) :
    ∀ (f : Nat) (rest : List Nat), n < f →
      varintDecodeF f (varintEncode n ++ rest) = some (n, rest) := by
  induction n using Nat.strong_induction_on with
  | _ n ih =>
    intro f rest hf
    match f with
    | f + 1 =>
      by_cases hn : n < 0x80
      · have he : varintEncode n = [n] := by
          simp [varintEncode, varintEncodeF, hn]
        rw [he]
        simp only [List.cons_append, List.nil_append, varintDecodeF]
        rw [if_pos hn]
        simp
      · have he : varintEncode n = (0x80 + n % 0x80) :: varintEncode (n / 0x80) := by
          show varintEncodeF (n + 1) n = _
          simp only [varintEncodeF]
          rw [if_neg hn,
            varintEncodeF_irrel (n / 0x80) n (n / 0x80 + 1) (by omega) (by omega)]
          rfl
        rw [he]
        simp only [List.cons_append, List.append_eq, varintDecodeF]
        rw [if_neg (by omega), if_pos (by omega),
          ih (n / 0x80) (by omega) f rest (by omega)]
        simp only [Option.map_some']
        have : 0x80 + n % 0x80 - 0x80 + 0x80 * (n / 0x80) = n := by omega
        rw [this]

/-- gzip-framing round trip on byte lists. -/
lemma gzipDecompress_compress (bs : List Nat) :
    gzipDecompress (gzipCompress bs) = some bs := by
  unfold gzipCompress gzipDecompress
  rw [List.append_assoc, List.take_left' (by rfl), if_pos rfl,
    List.drop_left' (by rfl),
    varintDecodeF_encode bs.length _ bs
      (by simp only [List.length_append, gzipHeader, List.length_cons,
            List.length_nil]; omega)]
  simp

/-- Every `Char`'s codepoint is below `0x110000`. -/
lemma char_toNat_lt (c : Char) : c.toNat < 0x110000 := by
  rcases c.valid with h | ⟨_, h⟩
  · exact Nat.lt_trans h (by decide)
  · exact h

/-- Round-trip law of the modelled codec: decompressing the compression of
any string yields exactly that string. -/
lemma decompress_compress (s : String) :
    decompressString (compressString s) = some s := by
  unfold compressString decompressString
  rw [gzipDecompress_compress]
  have h1 : utf8Decode (utf8Encode (strCodepoints s)) = some (strCodepoints s) :=
    utf8DecodeF_encode _ _
      (fun n hn => by
        simp only [strCodepoints, List.mem_map] at hn
        obtain ⟨c, _, rfl⟩ := hn
        exact char_toNat_lt c)
      (le_length_utf8Encode _)
  rw [show utf8Decode = fun l => utf8DecodeF l.length l from rfl] at h1
  simp only [utf8Decode, h1]
  have h2 : (strCodepoints s).map Char.ofNat = s.data := by
    simp [strCodepoints, List.map_map, Function.comp_def, Char.ofNat_toNat]
  rw [h2]

/-! ## `fetchContent` path lemmas -/

/-- Invalid URL (C5's code path): `fetchContent` throws before touching the
cache or the network — only the invocation log grows. -/
lemma fetchContent_invalid (env : Env) (url : String) (w : World)
    (h1 : env.canParse url = false) :
    fetchContent env url w =
      (.error (.invalidURL url),
       { now := w.now, kv := w.kv, getLog := w.getLog, putLog := w.putLog,
         netLog := w.netLog, fcLog := w.fcLog ++ [url] }) := by
  simp only [fetchContent, h1, if_pos]

/-- Cache-hit path: one KV get, no network, no put; the result is the
shared post-processing of the cached bytes. -/
lemma fetchContent_hit (env : Env) (url : String) (w : World)
    (content : List Nat)
    (h1 : env.canParse url = true)
    (h2 : kvGet w (env.sha256hex url) = some content) :
    fetchContent env url w =
      (postProcess env content,
       { now := w.now, kv := w.kv,
         getLog := w.getLog ++ [env.sha256hex url], putLog := w.putLog,
         netLog := w.netLog, fcLog := w.fcLog ++ [url] }) := by
  simp only [kvGet] at h2
  simp only [fetchContent, h1, Bool.true_eq_false, if_neg, ite_false, kvGet, h2]

/-- Cache-miss path with a network failure: one get, one fetch attempt, no
write, and the error is surfaced. -/
lemma fetchContent_netfail (env : Env) (url : String) (w : World)
    (h1 : env.canParse url = true)
    (h2 : kvGet w (env.sha256hex url) = none)
    (h3 : env.net url = none) :
    fetchContent env url w =
      (.error .fetchError,
       { now := w.now, kv := w.kv,
         getLog := w.getLog ++ [env.sha256hex url], putLog := w.putLog,
         netLog := w.netLog ++ [url], fcLog := w.fcLog ++ [url] }) := by
  simp only [kvGet] at h2
  simp only [fetchContent, h1, Bool.true_eq_false, if_neg, ite_false, kvGet, h2, h3]

/-- Cache-miss path with a successful fetch: one get, one fetch, one write
of the compressed markdown, and the returned value is the shared
post-processing of the just-written bytes. -/
lemma fetchContent_miss (env : Env) (url : String) (w : World) (body : String)
    (h1 : env.canParse url = true)
    (h2 : kvGet w (env.sha256hex url) = none)
    (h3 : env.net url = some body) :
    fetchContent env url w =
      (postProcess env (compressString (env.toMarkdown body)),
       { now := w.now,
         kv := { key := env.sha256hex url,
                 bytes := compressString (env.toMarkdown body),
                 expiresAt := w.now + 60 * 1000 } ::
           w.kv.filter (fun e => e.key != env.sha256hex url),
         getLog := w.getLog ++ [env.sha256hex url],
         putLog := w.putLog ++ [(env.sha256hex url, compressString (env.toMarkdown body))],
         netLog := w.netLog ++ [url], fcLog := w.fcLog ++ [url] }) := by
  simp only [kvGet] at h2
  simp only [fetchContent, h1, Bool.true_eq_false, if_neg, ite_false, kvGet, h2, h3,
    kvSet]

/-- The shared post-processing of freshly compressed markdown always
succeeds and sanitizes the rendered markdown. -/
lemma postProcess_compress (env : Env) (s : String) :
    postProcess env (compressString s) =
      .ok (env.sanitize (env.markedParse s)) := by
  simp only [postProcess, decompress_compress]

/-- Every `fetchContent` invocation appends exactly its URL to the
invocation log, on all four paths. -/
lemma fetchContent_fcLog (env : Env) (url : String) (w : World) :
    (fetchContent env url w).2.fcLog = w.fcLog ++ [url] := by
  by_cases h1 : env.canParse url = false
  · rw [fetchContent_invalid env url w h1]
  · rw [Bool.not_eq_false] at h1
    match h2 : kvGet w (env.sha256hex url) with
    | some content => rw [fetchContent_hit env url w content h1 h2]
    | none =>
      match h3 : env.net url with
      | none => rw [fetchContent_netfail env url w h1 h2 h3]
      | some body => rw [fetchContent_miss env url w body h1 h2 h3]

/-! ## Cache well-formedness and `fetchContent` success -/

/-- A world avoiding a key reports a miss for it. -/
lemma kvGet_of_keysAvoid (w : World) (k : String) (h : keysAvoid w k) :
    kvGet w k = none := by
  simp only [kvGet, kvFind]
  match hf : w.kv.find? (fun e => e.key == k) with
  | some e =>
    have hm := List.mem_of_find?_eq_some hf
    have := List.find?_some hf
    simp only [beq_iff_eq] at this
    exact absurd this (h e hm)
  | none => rw [hf]

/-- `fetchContent` only ever writes compressed strings, so it preserves
cache well-formedness. -/
lemma kvWF_fetchContent (env : Env) (url : String) (w : World) (h : kvWF w) :
    kvWF (fetchContent env url w).2 := by
  by_cases h1 : env.canParse url = false
  · rw [fetchContent_invalid env url w h1]; exact h
  · rw [Bool.not_eq_false] at h1
    match h2 : kvGet w (env.sha256hex url) with
    | some content => rw [fetchContent_hit env url w content h1 h2]; exact h
    | none =>
      match h3 : env.net url with
      | none => rw [fetchContent_netfail env url w h1 h2 h3]; exact h
      | some body =>
        rw [fetchContent_miss env url w body h1 h2 h3]
        intro e he
        rcases List.mem_cons.mp he with rfl | he'
        · exact ⟨env.toMarkdown body, rfl⟩
        · exact h e (List.mem_of_mem_filter he')

/-- Every key present after a `fetchContent` call was present before or is
the hash of the fetched URL. -/
lemma kvKeys_fetchContent (env : Env) (url : String) (w : World) :
    ∀ e ∈ (fetchContent env url w).2.kv, e ∈ w.kv ∨ e.key = env.sha256hex url := by
  by_cases h1 : env.canParse url = false
  · rw [fetchContent_invalid env url w h1]; exact fun e he => Or.inl he
  · rw [Bool.not_eq_false] at h1
    match h2 : kvGet w (env.sha256hex url) with
    | some content =>
      rw [fetchContent_hit env url w content h1 h2]; exact fun e he => Or.inl he
    | none =>
      match h3 : env.net url with
      | none =>
        rw [fetchContent_netfail env url w h1 h2 h3]; exact fun e he => Or.inl he
      | some body =>
        rw [fetchContent_miss env url w body h1 h2 h3]
        intro e he
        rcases List.mem_cons.mp he with rfl | he'
        · exact Or.inr rfl
        · exact Or.inl (List.mem_of_mem_filter he')

/-- On a well-formed cache, a parseable URL with a reachable article always
fetches successfully (hit or miss). -/
lemma fetchContent_ok (env : Env) (url : String) (w : World)
    (h1 : env.canParse url = true) (hwf : kvWF w)
    (h3 : (env.net url).isSome = true) :
    ∃ v, (fetchContent env url w).1 = .ok v := by
  match h2 : kvGet w (env.sha256hex url) with
  | some content =>
    rw [fetchContent_hit env url w content h1 h2]
    have hmem : ∃ e ∈ w.kv, e.bytes = content := by
      simp only [kvGet, kvFind] at h2
      match hf : w.kv.find? (fun e => e.key == env.sha256hex url) with
      | some e =>
        rw [hf] at h2
        have h2' : (if w.now < e.expiresAt then some e.bytes else none) =
            some content := h2
        by_cases hexp : w.now < e.expiresAt
        · rw [if_pos hexp] at h2'
          exact ⟨e, List.mem_of_find?_eq_some hf, Option.some_injective _ h2'⟩
        · rw [if_neg hexp] at h2'; cases h2'
      | none => rw [hf] at h2; cases h2
    obtain ⟨e, he, hb⟩ := hmem
    obtain ⟨s, hs⟩ := hwf e he
    rw [← hb, hs]
    exact ⟨_, congrArg Prod.fst (congrArg₂ Prod.mk (postProcess_compress env s) rfl)⟩
  | none =>
    obtain ⟨body, hb⟩ := Option.isSome_iff_exists.mp h3
    rw [fetchContent_miss env url w body h1 h2 hb]
    exact ⟨_, congrArg Prod.fst (congrArg₂ Prod.mk (postProcess_compress env _) rfl)⟩

/-! ## `processEntries` behaviour -/

/-- Invocation order and count of the loop: from a running count `c`, the
URLs handed to `fetchContent` are exactly the first `MAX_ARTICLES - c`
link-bearing entries' URLs, in feed order — link-less entries are filtered
out without consuming budget. -/
lemma processEntries_fcLog (env : Env) :
    ∀ (es : List Entry) (c : Nat) (w : World),
      (processEntries env es c w).2.fcLog =
        w.fcLog ++ (es.filterMap entryUrl).take (MAX_ARTICLES - c) := by
  intro es
  induction es with
  | nil => intro c w; simp [processEntries]
  | cons item rest ih =>
    intro c w
    simp only [processEntries]
    by_cases hc : c ≥ MAX_ARTICLES
    · rw [if_pos hc]
      have h0 : MAX_ARTICLES - c = 0 := by omega
      simp [h0]
    · rw [if_neg hc]
      match hu : entryUrl item with
      | none =>
        simp only [List.filterMap_cons, hu]
        exact ih c w
      | some url =>
        simp only [List.filterMap_cons, hu]
        have h10 : MAX_ARTICLES - c = (MAX_ARTICLES - (c + 1)) + 1 := by
          simp only [MAX_ARTICLES] at hc ⊢; omega
        rw [h10, List.take_succ_cons, ih (c + 1) (fetchContent env url w).2,
          fetchContent_fcLog]
        simp

/-- Each entry with a link before the budget runs out yields at most one
transformed entry; every output entry is the input entry untouched,
content-initialized, or populated. -/
lemma processEntries_shape (env : Env) :
    ∀ (es : List Entry) (c : Nat) (w : World),
      List.Forall₂
        (fun a b => b = a ∨ b = initContent a ∨ ∃ v, b = setContentValue a v)
        es (processEntries env es c w).1 := by
  intro es
  induction es with
  | nil => intro c w; simp [processEntries]
  | cons item rest ih =>
    intro c w
    simp only [processEntries]
    by_cases hc : c ≥ MAX_ARTICLES
    · rw [if_pos hc]
      exact List.forall₂_same.mpr (fun x _ => Or.inl rfl)
    · rw [if_neg hc]
      match hu : entryUrl item with
      | none => exact List.Forall₂.cons (Or.inl rfl) (ih c w)
      | some url =>
        apply List.Forall₂.cons
        · match hfr : (fetchContent env url w).1 with
          | .ok v => exact Or.inr (Or.inr ⟨v, rfl⟩)
          | .error e => exact Or.inr (Or.inl rfl)
        · exact ih (c + 1) (fetchContent env url w).2

/-- Length preservation of the loop. -/
lemma processEntries_length (env : Env) (es : List Entry) (c : Nat) (w : World) :
    (processEntries env es c w).1.length = es.length :=
  ((processEntries_shape env es c w).length_eq).symm

/-- Processing a list of good entries from a well-formed cache avoiding the
failing key populates every link-bearing entry (and leaves the others
untouched), keeps the cache well-formed, and still avoids the failing
key. -/
lemma processEntries_good (env : Env) (burl : String) :
    ∀ (es : List Entry) (c : Nat) (w : World),
      (∀ e ∈ es, goodEntryB env burl e = true) →
      c + es.length ≤ MAX_ARTICLES → kvWF w →
      keysAvoid w (env.sha256hex burl) →
      List.Forall₂ PopulatedRel es (processEntries env es c w).1 ∧
        kvWF (processEntries env es c w).2 ∧
        keysAvoid (processEntries env es c w).2 (env.sha256hex burl) := by
  intro es
  induction es with
  | nil => intro c w _ _ hwf hka; exact ⟨List.Forall₂.nil, hwf, hka⟩
  | cons item rest ih =>
    intro c w hg hlen hwf hka
    have hc : ¬ c ≥ MAX_ARTICLES := by
      simp only [List.length_cons] at hlen; omega
    simp only [processEntries]
    rw [if_neg hc]
    match hu : entryUrl item with
    | none =>
      simp only []
      have hrest := ih c w (fun e he => hg e (List.mem_cons_of_mem _ he))
        (by simp only [List.length_cons] at hlen; omega) hwf hka
      exact ⟨List.Forall₂.cons ⟨by simp [hu], fun _ => rfl⟩ hrest.1,
        hrest.2.1, hrest.2.2⟩
    | some url =>
      simp only []
      have hgi := hg item (List.mem_cons_self _ _)
      simp only [goodEntryB, hu, Bool.and_eq_true, bne_iff_ne] at hgi
      obtain ⟨⟨hcp, hns⟩, hne⟩ := hgi
      obtain ⟨v, hv⟩ := fetchContent_ok env url w hcp hwf hns
      have hwf1 : kvWF (fetchContent env url w).2 :=
        kvWF_fetchContent env url w hwf
      have hka1 : keysAvoid (fetchContent env url w).2 (env.sha256hex burl) := by
        intro e he
        rcases kvKeys_fetchContent env url w e he with he' | he'
        · exact hka e he'
        · rw [he']; exact hne
      have hrest := ih (c + 1) (fetchContent env url w).2
        (fun e he => hg e (List.mem_cons_of_mem _ he))
        (by simp only [List.length_cons] at hlen; omega) hwf1 hka1
      rw [hv]
      exact ⟨List.Forall₂.cons
          ⟨fun _ => ⟨v, rfl⟩, fun hnone => by rw [hu] at hnone; cases hnone⟩
          hrest.1,
        hrest.2.1, hrest.2.2⟩

/-- Processing entries split around a single failing entry (unparseable?
no — parseable but unreachable): the failing entry comes out exactly
content-initialized, everything else populated or untouched. -/
lemma processEntries_onebad (env : Env) (burl : String) (bitem : Entry)
    (hbu : entryUrl bitem = some burl) (hbp : env.canParse burl = true)
    (hbn : env.net burl = none) (post : List Entry)
    (hgpost : ∀ e ∈ post, goodEntryB env burl e = true) :
    ∀ (pre : List Entry) (c : Nat) (w : World),
      (∀ e ∈ pre, goodEntryB env burl e = true) →
      c + pre.length + 1 + post.length ≤ MAX_ARTICLES → kvWF w →
      keysAvoid w (env.sha256hex burl) →
      ∃ pre' post',
        (processEntries env (pre ++ bitem :: post) c w).1 =
          pre' ++ initContent bitem :: post' ∧
        List.Forall₂ PopulatedRel pre pre' ∧
        List.Forall₂ PopulatedRel post post' := by
  intro pre
  induction pre with
  | nil =>
    intro c w _ hlen hwf hka
    have hc : ¬ c ≥ MAX_ARTICLES := by
      simp only [List.length_nil] at hlen; omega
    simp only [List.nil_append, processEntries]
    rw [if_neg hc]
    match hu : entryUrl bitem with
    | some burl' =>
      simp only []
      have hb : burl' = burl := by rw [hbu] at hu; exact (Option.some_injective _ hu).symm
      subst hb
      rw [fetchContent_netfail env burl' w hbp (kvGet_of_keysAvoid w _ hka) hbn]
      have hrest := processEntries_good env burl' post (c + 1)
        { now := w.now, kv := w.kv,
          getLog := w.getLog ++ [env.sha256hex burl'], putLog := w.putLog,
          netLog := w.netLog ++ [burl'], fcLog := w.fcLog ++ [burl'] }
        hgpost (by simp only [List.length_nil] at hlen; omega) hwf hka
      exact ⟨[], _, rfl, List.Forall₂.nil, hrest.1⟩
    | none => rw [hbu] at hu; cases hu
  | cons p pre' ih =>
    intro c w hg hlen hwf hka
    have hc : ¬ c ≥ MAX_ARTICLES := by
      simp only [List.length_cons] at hlen; omega
    simp only [List.cons_append, processEntries]
    rw [if_neg hc]
    match hu : entryUrl p with
    | none =>
      simp only []
      obtain ⟨pre2, post2, heq, hf1, hf2⟩ := ih c w
        (fun e he => hg e (List.mem_cons_of_mem _ he))
        (by simp only [List.length_cons] at hlen; omega) hwf hka
      refine ⟨p :: pre2, post2, ?_,
        List.Forall₂.cons ⟨by simp [hu], fun _ => rfl⟩ hf1, hf2⟩
      show p :: (processEntries env (pre' ++ bitem :: post) c w).1 = _
      rw [heq]
      rfl
    | some url =>
      simp only []
      have hgi := hg p (List.mem_cons_self _ _)
      simp only [goodEntryB, hu, Bool.and_eq_true, bne_iff_ne] at hgi
      obtain ⟨⟨hcp, hns⟩, hne⟩ := hgi
      obtain ⟨v, hv⟩ := fetchContent_ok env url w hcp hwf hns
      have hwf1 : kvWF (fetchContent env url w).2 :=
        kvWF_fetchContent env url w hwf
      have hka1 : keysAvoid (fetchContent env url w).2 (env.sha256hex burl) := by
        intro e he
        rcases kvKeys_fetchContent env url w e he with he' | he'
        · exact hka e he'
        · rw [he']; exact hne
      obtain ⟨pre2, post2, heq, hf1, hf2⟩ := ih (c + 1) (fetchContent env url w).2
        (fun e he => hg e (List.mem_cons_of_mem _ he))
        (by simp only [List.length_cons] at hlen; omega) hwf1 hka1
      refine ⟨setContentValue p v :: pre2, post2, ?_,
        List.Forall₂.cons
          ⟨fun _ => ⟨v, rfl⟩, fun hnone => by rw [hu] at hnone; cases hnone⟩ hf1,
        hf2⟩
      show (match (fetchContent env url w).1 with
        | Except.ok c => setContentValue p c
        | Except.error _ => initContent p) ::
          (processEntries env (pre' ++ bitem :: post) (c + 1)
            (fetchContent env url w).2).1 = _
      rw [hv, heq]
      rfl

/-- `processFeed` only replaces the entry list. -/
lemma processFeed_entries (env : Env) (feed : Feed) (w : World) :
    (processFeed env feed w).1.entries = (processEntries env feed.entries 0 w).1 :=
  rfl

/-- The world after `processFeed` is the world after the loop. -/
lemma processFeed_world (env : Env) (feed : Feed) (w : World) :
    (processFeed env feed w).2 = (processEntries env feed.entries 0 w).2 :=
  rfl

/-- When every entry carries a link, filtering URLs drops nothing. -/
lemma length_filterMap_entryUrl (es : List Entry)
    (h : ∀ e ∈ es, (entryUrl e).isSome = true) :
    (es.filterMap entryUrl).length = es.length := by
  induction es with
  | nil => rfl
  | cons e es ih =>
    have he := h e (List.mem_cons_self _ _)
    obtain ⟨u, hu⟩ := Option.isSome_iff_exists.mp he
    simp only [List.filterMap_cons, hu, List.length_cons]
    rw [ih (fun x hx => h x (List.mem_cons_of_mem _ hx))]

/-- The export loop keeps exactly the entries with a non-null title, in
order. -/
lemma exportEntries_filter (nowDate : Nat) :
    ∀ es : List Entry,
      exportEntries nowDate es =
        (es.filter (fun e => e.title.isSome)).map (mkRssItem nowDate) := by
  intro es
  induction es with
  | nil => rfl
  | cons e es ih =>
    simp only [exportEntries]
    match ht : e.title with
    | none => simp [List.filter_cons, ht, ih]
    | some t => simp [List.filter_cons, ht, ih]

/-- A fresh head entry in the store is returned as long as its expiry has
not passed. -/
lemma kvGet_head (now : Nat) (k : String) (bs : List Nat) (exp : Nat)
    (rest : List KVEntry) (g : List String) (p : List (String × List Nat))
    (n f : List String) (h : now < exp) :
    kvGet
      { now := now,
        kv := { key := k, bytes := bs, expiresAt := exp } :: rest,
        getLog := g, putLog := p, netLog := n, fcLog := f } k = some bs := by
  simp [kvGet, kvFind, List.find?, h]

end FullRss

namespace FullRss

/-! ## The claims -/

/-- C2 (counterexample): the claim says `processFeed` "stops after the
first 10 entries are considered", with link-less entries counting toward
the bound.  On a feed whose first entry is link-less followed by eleven
link-bearing entries, that reading would leave the 11th entry (index 10)
untouched and make at most 9 fetch attempts; the program instead modifies
entry index 10 and invokes `fetchContent` 10 times. -/
theorem c2_counterexample :
    (processFeed envA feedC2 w0).1.entries.get? 10 ≠ feedC2.entries.get? 10 ∧
      (processFeed envA feedC2 w0).2.fcLog.length = 10 := by
  constructor
  · decide
  · decide

/-- C2 (amended): `processFeed` iterates entries in original order and
hands `fetchContent` exactly the URLs of the first `MAX_ARTICLES`
link-bearing entries — entries skipped for lacking a link do **not** count
toward the bound of 10; the count is of entries that reach the fetch
stage. -/
theorem c2_amended_iteration_order (env : Env) (feed : Feed) (w : World) :
    (processFeed env feed w).2.fcLog =
      w.fcLog ++ (feed.entries.filterMap entryUrl).take MAX_ARTICLES := by
  rw [processFeed_world, processEntries_fcLog]
  rfl

/-- C3: the codec round-trips losslessly — for every content string `s`,
including the empty string, decompressing the compression of `s` yields
exactly `s`. -/
theorem c3_codec_roundtrip (s : String) :
    decompressString (compressString s) = some s :=
  decompress_compress s

/-- C4: `processFeed` never invokes `fetchContent` more than 10 times, and
on a feed of 50 entries each carrying a valid first link it invokes it
exactly 10 times. -/
theorem c4_bounded_fanout :
    (∀ (env : Env) (feed : Feed) (w : World),
      (processFeed env feed w).2.fcLog.length ≤ w.fcLog.length + MAX_ARTICLES) ∧
    (∀ (env : Env) (feed : Feed) (w : World),
      feed.entries.length = 50 →
      (∀ e ∈ feed.entries, (entryUrl e).isSome = true) →
      (processFeed env feed w).2.fcLog.length = w.fcLog.length + MAX_ARTICLES) := by
  constructor
  · intro env feed w
    rw [processFeed_world, processEntries_fcLog]
    simp only [List.length_append, List.length_take]
    omega
  · intro env feed w h50 hlinks
    rw [processFeed_world, processEntries_fcLog]
    simp only [List.length_append, List.length_take,
      length_filterMap_entryUrl feed.entries hlinks, h50]
    rfl

/-- C4 (witness): on the concrete 50-entry feed, exactly 10 invocations. -/
theorem c4_witness :
    feedC4.entries.length = 50 ∧
      (∀ e ∈ feedC4.entries, (entryUrl e).isSome = true) ∧
      (processFeed envA feedC4 w0).2.fcLog.length =
        w0.fcLog.length + MAX_ARTICLES :=
  ⟨by decide, by decide,
    c4_bounded_fanout.2 envA feedC4 w0 (by decide) (by decide)⟩

/-- C5: an unparseable URL makes `fetchContent` fail with the invalid-URL
error while leaving the network log, both cache logs and the store itself
untouched — no network request and no cache get/put happens. -/
theorem c5_invalid_url_rejection (env : Env) (url : String) (w : World)
    (h : env.canParse url = false) :
    (fetchContent env url w).1 = .error (.invalidURL url) ∧
      (fetchContent env url w).2.netLog = w.netLog ∧
      (fetchContent env url w).2.getLog = w.getLog ∧
      (fetchContent env url w).2.putLog = w.putLog ∧
      (fetchContent env url w).2.kv = w.kv := by
  rw [fetchContent_invalid env url w h]
  exact ⟨rfl, rfl, rfl, rfl, rfl⟩

/-- C5 (witness): the literal input `"not a url"` is rejected with no
observable effect. -/
theorem c5_witness :
    envA.canParse "not a url" = false ∧
      ((fetchContent envA "not a url" w0).1 =
          .error (.invalidURL "not a url") ∧
        (fetchContent envA "not a url" w0).2.netLog = w0.netLog ∧
        (fetchContent envA "not a url" w0).2.getLog = w0.getLog ∧
        (fetchContent envA "not a url" w0).2.putLog = w0.putLog ∧
        (fetchContent envA "not a url" w0).2.kv = w0.kv) :=
  ⟨by decide, c5_invalid_url_rejection envA "not a url" w0 (by decide)⟩

/-- C8: per-article failures are contained — `processFeed` always returns a
feed with exactly the original entries in order, each one untouched,
content-initialized (the caught-failure shape), or populated; no per-article
failure escapes to fail the request. -/
theorem c8_failure_containment (env : Env) (feed : Feed) (w : World) :
    (processFeed env feed w).1.entries.length = feed.entries.length ∧
      List.Forall₂
        (fun a b => b = a ∨ b = initContent a ∨ ∃ v, b = setContentValue a v)
        feed.entries (processFeed env feed w).1.entries := by
  rw [processFeed_entries]
  exact ⟨processEntries_length env feed.entries 0 w,
    processEntries_shape env feed.entries 0 w⟩

/-- C9: serialization drops exactly the entries whose title is null and
emits all remaining entries in their original feed order. -/
theorem c9_export_drops_null_titles (nowDate : Nat) (feed : Feed) :
    (exportFeed nowDate feed).items =
      (feed.entries.filter (fun e => e.title.isSome)).map (mkRssItem nowDate) :=
  exportEntries_filter nowDate feed.entries

/-- C1 (counterexample): the claim says a failing entry is left *entirely*
unchanged, including an absent content field.  On a one-entry feed whose
entry has no content field and whose URL fails, `processFeed` returns the
entry with its content field initialized to an empty content object — the
entry list is not equal to the input. -/
theorem c1_counterexample :
    (processFeed envA feedC1 w0).1.entries ≠ feedC1.entries := by
  decide

/-- C1 (amended): on a feed (within the 10-entry budget, starting from an
empty cache) with exactly one failing entry whose key collides with no
other, the failing entry is kept in place and unchanged *except* that an
absent content field is initialized to an empty content object (its content
value stays untouched), every other link-bearing entry is populated with a
fetched value, link-less entries are untouched, and no entry is removed. -/
theorem c1_amended_partial_failure (env : Env) (feed : Feed) (w : World)
    (pre post : List Entry) (bitem : Entry) (burl : String)
    (hsplit : feed.entries = pre ++ bitem :: post)
    (hbu : entryUrl bitem = some burl)
    (hbp : env.canParse burl = true)
    (hbn : env.net burl = none)
    (hlen : feed.entries.length ≤ MAX_ARTICLES)
    (hgpre : ∀ e ∈ pre, goodEntryB env burl e = true)
    (hgpost : ∀ e ∈ post, goodEntryB env burl e = true)
    (hkv : w.kv = []) :
    ∃ pre' post',
      (processFeed env feed w).1.entries = pre' ++ initContent bitem :: post' ∧
      List.Forall₂ PopulatedRel pre pre' ∧
      List.Forall₂ PopulatedRel post post' ∧
      (processFeed env feed w).1.entries.length = feed.entries.length := by
  have hwf : kvWF w := by intro e he; rw [hkv] at he; cases he
  have hka : keysAvoid w (env.sha256hex burl) := by
    intro e he; rw [hkv] at he; cases he
  have hlen' : 0 + pre.length + 1 + post.length ≤ MAX_ARTICLES := by
    rw [hsplit] at hlen
    simp only [List.length_append, List.length_cons] at hlen
    omega
  obtain ⟨pre', post', heq, hf1, hf2⟩ :=
    processEntries_onebad env burl bitem hbu hbp hbn post hgpost pre 0 w
      hgpre hlen' hwf hka
  refine ⟨pre', post', ?_, hf1, hf2, ?_⟩
  · rw [processFeed_entries, hsplit, heq]
  · rw [processFeed_entries, processEntries_length]

/-- C1 (witness): a good entry, the failing entry, another good entry. -/
theorem c1_witness :
    feedMixed.entries = [goodEntryE] ++ badE :: [goodEntryE2] ∧
      entryUrl badE = some "https://bad.test/" ∧
      envA.net "https://bad.test/" = none ∧
      ∃ pre' post',
        (processFeed envA feedMixed w0).1.entries =
          pre' ++ initContent badE :: post' ∧
        List.Forall₂ PopulatedRel [goodEntryE] pre' ∧
        List.Forall₂ PopulatedRel [goodEntryE2] post' ∧
        (processFeed envA feedMixed w0).1.entries.length =
          feedMixed.entries.length :=
  ⟨by decide, by decide, by decide,
    c1_amended_partial_failure envA feedMixed w0 [goodEntryE] [goodEntryE2]
      badE "https://bad.test/" (by decide) (by decide) (by decide) (by decide)
      (by decide) (by decide) (by decide) (by decide)⟩

/-- C6: two calls within the TTL window perform exactly one network fetch
and one cache write in total — the first call fetches and writes once, the
second call (at any time `t2` before expiry) touches neither the network
nor the store and returns the same post-processed content. -/
theorem c6_cache_idempotence (env : Env) (url : String) (w : World)
    (body : String) (t2 : Nat)
    (h1 : env.canParse url = true)
    (h2 : kvGet w (env.sha256hex url) = none)
    (h3 : env.net url = some body)
    (h4 : t2 < w.now + 60 * 1000) :
    ∃ v,
      (fetchContent env url w).1 = .ok v ∧
      (fetchContent env url w).2.netLog = w.netLog ++ [url] ∧
      (fetchContent env url w).2.putLog =
        w.putLog ++ [(env.sha256hex url, compressString (env.toMarkdown body))] ∧
      (fetchContent env url { (fetchContent env url w).2 with now := t2 }).1 =
        .ok v ∧
      (fetchContent env url { (fetchContent env url w).2 with now := t2 }).2.netLog =
        (fetchContent env url w).2.netLog ∧
      (fetchContent env url { (fetchContent env url w).2 with now := t2 }).2.putLog =
        (fetchContent env url w).2.putLog ∧
      (fetchContent env url { (fetchContent env url w).2 with now := t2 }).2.kv =
        (fetchContent env url w).2.kv := by
  have hmiss := fetchContent_miss env url w body h1 h2 h3
  have hget : kvGet { (fetchContent env url w).2 with now := t2 }
      (env.sha256hex url) = some (compressString (env.toMarkdown body)) := by
    rw [hmiss]
    exact kvGet_head t2 _ _ _ _ _ _ _ _ h4
  have hhit := fetchContent_hit env url
    { (fetchContent env url w).2 with now := t2 } _ h1 hget
  refine ⟨env.sanitize (env.markedParse (env.toMarkdown body)),
    ?_, ?_, ?_, ?_, ?_, ?_, ?_⟩
  · rw [hmiss]
    exact postProcess_compress env _
  · rw [hmiss]
  · rw [hmiss]
  · rw [hhit]
    exact postProcess_compress env _
  · rw [hhit, hmiss]
  · rw [hhit, hmiss]
  · rw [hhit, hmiss]

/-- C6 (witness): two calls for the same URL, the second 1 second later. -/
theorem c6_witness :
    envA.canParse "https://a.test/1" = true ∧
      kvGet w0 (envA.sha256hex "https://a.test/1") = none ∧
      envA.net "https://a.test/1" = some "hi" ∧
      (1000 : Nat) < w0.now + 60 * 1000 ∧
      ∃ v,
        (fetchContent envA "https://a.test/1" w0).1 = .ok v ∧
        (fetchContent envA "https://a.test/1" w0).2.netLog =
          w0.netLog ++ ["https://a.test/1"] ∧
        (fetchContent envA "https://a.test/1" w0).2.putLog =
          w0.putLog ++ [(envA.sha256hex "https://a.test/1",
            compressString (envA.toMarkdown "hi"))] ∧
        (fetchContent envA "https://a.test/1"
            { (fetchContent envA "https://a.test/1" w0).2 with now := 1000 }).1 =
          .ok v ∧
        (fetchContent envA "https://a.test/1"
            { (fetchContent envA "https://a.test/1" w0).2 with now := 1000 }).2.netLog =
          (fetchContent envA "https://a.test/1" w0).2.netLog ∧
        (fetchContent envA "https://a.test/1"
            { (fetchContent envA "https://a.test/1" w0).2 with now := 1000 }).2.putLog =
          (fetchContent envA "https://a.test/1" w0).2.putLog ∧
        (fetchContent envA "https://a.test/1"
            { (fetchContent envA "https://a.test/1" w0).2 with now := 1000 }).2.kv =
          (fetchContent envA "https://a.test/1" w0).2.kv :=
  ⟨by decide, by decide, by decide, by decide,
    c6_cache_idempotence envA "https://a.test/1" w0 "hi" 1000
      (by decide) (by decide) (by decide) (by decide)⟩

/-- C7: on the miss path the cache now holds exactly the just-compressed
bytes, the returned value is the shared post-processing of those very
bytes (not the pre-compression string), and an immediately following call —
a pure hit on the same stored bytes — returns the identical result. -/
theorem c7_miss_equals_hit_path (env : Env) (url : String) (w : World)
    (body : String)
    (h1 : env.canParse url = true)
    (h2 : kvGet w (env.sha256hex url) = none)
    (h3 : env.net url = some body) :
    kvGet (fetchContent env url w).2 (env.sha256hex url) =
        some (compressString (env.toMarkdown body)) ∧
      (fetchContent env url w).1 =
        postProcess env (compressString (env.toMarkdown body)) ∧
      (fetchContent env url (fetchContent env url w).2).1 =
        (fetchContent env url w).1 := by
  have hmiss := fetchContent_miss env url w body h1 h2 h3
  have hget : kvGet (fetchContent env url w).2 (env.sha256hex url) =
      some (compressString (env.toMarkdown body)) := by
    rw [hmiss]
    exact kvGet_head w.now _ _ _ _ _ _ _ _ (by omega)
  have hhit := fetchContent_hit env url (fetchContent env url w).2 _ h1 hget
  refine ⟨hget, ?_, ?_⟩
  · rw [hmiss]
  · rw [hhit, hmiss]

/-- C7 (witness): concrete miss followed by the equal hit. -/
theorem c7_witness :
    envA.canParse "https://a.test/2" = true ∧
      kvGet w0 (envA.sha256hex "https://a.test/2") = none ∧
      envA.net "https://a.test/2" = some "hi" ∧
      (kvGet (fetchContent envA "https://a.test/2" w0).2
          (envA.sha256hex "https://a.test/2") =
          some (compressString (envA.toMarkdown "hi")) ∧
        (fetchContent envA "https://a.test/2" w0).1 =
          postProcess envA (compressString (envA.toMarkdown "hi")) ∧
        (fetchContent envA "https://a.test/2"
            (fetchContent envA "https://a.test/2" w0).2).1 =
          (fetchContent envA "https://a.test/2" w0).1) :=
  ⟨by decide, by decide, by decide,
    c7_miss_equals_hit_path envA "https://a.test/2" w0 "hi"
      (by decide) (by decide) (by decide)⟩

/-- C10: an entry whose fetch fails still increments the article counter
(the recursion continues with `c + 1`), while an entry with no links or a
null first href is skipped without incrementing the counter (the recursion
continues with the same `c`). -/
theorem c10_counter_semantics :
    (∀ (env : Env) (item : Entry) (rest : List Entry) (c : Nat) (w : World)
        (url : String) (err : FCErr),
      c < MAX_ARTICLES → entryUrl item = some url →
      (fetchContent env url w).1 = .error err →
      processEntries env (item :: rest) c w =
        (initContent item ::
            (processEntries env rest (c + 1) (fetchContent env url w).2).1,
          (processEntries env rest (c + 1) (fetchContent env url w).2).2)) ∧
    (∀ (env : Env) (item : Entry) (rest : List Entry) (c : Nat) (w : World),
      c < MAX_ARTICLES → entryUrl item = none →
      processEntries env (item :: rest) c w =
        (item :: (processEntries env rest c w).1,
          (processEntries env rest c w).2)) := by
  constructor
  · intro env item rest c w url err hc hu herr
    simp only [processEntries]
    rw [if_neg (by omega), hu]
    simp only []
    rw [herr]
  · intro env item rest c w hc hu
    simp only [processEntries]
    rw [if_neg (by omega), hu]

/-- C10 (witness): a failing entry increments the counter; a link-less
entry does not. -/
theorem c10_witness :
    ((0 : Nat) < MAX_ARTICLES ∧
      entryUrl badE = some "https://bad.test/" ∧
      (fetchContent envA "https://bad.test/" w0).1 = .error .fetchError ∧
      processEntries envA [badE] 0 w0 =
        (initContent badE ::
            (processEntries envA [] (0 + 1)
              (fetchContent envA "https://bad.test/" w0).2).1,
          (processEntries envA [] (0 + 1)
            (fetchContent envA "https://bad.test/" w0).2).2)) ∧
    ((0 : Nat) < MAX_ARTICLES ∧
      entryUrl noLinkE = none ∧
      processEntries envA (noLinkE :: [badE]) 0 w0 =
        (noLinkE :: (processEntries envA [badE] 0 w0).1,
          (processEntries envA [badE] 0 w0).2)) :=
  ⟨⟨by decide, by decide, by decide,
    c10_counter_semantics.1 envA badE [] 0 w0 "https://bad.test/" .fetchError
      (by decide) (by decide) (by decide)⟩,
   ⟨by decide, by decide,
    c10_counter_semantics.2 envA noLinkE [badE] 0 w0 (by decide) (by decide)⟩⟩

end FullRss
